import Mathlib

/-!
Shallow embedding of the BPS patch engine from `src/BaseFiles/bps_patcher.py`
(`apply_bps_patch` and `read_vlv`).

Buffers are `List Nat` (Python `bytes`).  Python integers are `Nat` where the
source only ever holds non-negative values (patch cursor, target write cursor)
and `Int` where the value can go negative (the source read cursor, which a
SourceCopy action repositions by a signed relative offset, and the TargetCopy
read position).  Python exceptions become `Except Err`; the two `ValueError`
raises of the header check, the iteration-guard `ValueError`, and the
`IndexError` that Python raises on an index below `-len(buf)` each get their
own constructor.

Python indexing `buf[i]` on a negative `i` wraps to `buf[len(buf) + i]` and
raises `IndexError` only below `-len(buf)`; `pyGet` reproduces that, because
the `SourceRead` branch of the interpreter indexes the source buffer with a
possibly negative cursor.
-/

/-- Error outcomes of `apply_bps_patch`: the two header `ValueError`s, the
iteration-guard `ValueError`, and a Python `IndexError`. -/
inductive Err where
  | patchTooSmall
  | invalidMagic
  | maxIterations
  | indexError
deriving DecidableEq, Repr

/-- Interpreter state of `apply_bps_patch`: the patch cursor (`offset` in the
source), the source read cursor (`source_read_offset`, an `Int` because
SourceCopy can drive it negative), the target write cursor
(`target_write_offset`) and the target buffer. -/
structure St where
  offset : Nat
  srcOff : Int
  twOff : Nat
  target : List Nat
deriving DecidableEq, Repr

/-- Python list indexing `b[i]`: a negative index counts from the end of the
list; an index out of range on either side raises `IndexError`. -/
def pyGet (b : List Nat) (i : Int) : Except Err Nat :=
  let j : Int := if i < 0 then i + b.length else i
  if 0 ≤ j then
    match b[j.toNat]? with
    | some v => .ok v
    | none => .error .indexError
  else .error .indexError

/-- Loop body of `read_vlv`, iterating over the bytes remaining from the
current offset (`while offset < len(data)` reading `data[offset]`).  Returns
the accumulated value and the offset just past the last byte consumed. -/
def readVlvGo : List Nat → Nat → Nat → Nat → Nat × Nat
  | [], offset, result, _ => (result, offset)
  | byte :: rest, offset, result, shift =>
    let result' := result + (byte &&& 127) * shift
    if byte &&& 128 ≠ 0 then (result', offset + 1)
    else readVlvGo rest (offset + 1) result' (shift <<< 7)

/-- Embedding of `read_vlv(data, offset)`: decode one variable-length value
starting at `offset`, returning `(value, new_offset)`.  Never fails: if the
data ends before a byte with bit 7 set, the accumulated value is returned
with the offset at the end of the data. -/
def read_vlv (data : List Nat) (offset : Nat) : Nat × Nat :=
  readVlvGo (data.drop offset) offset 0 1

/-- Signed relative offset decoding shared by the SourceCopy and TargetCopy
branches: the low bit of the decoded magnitude is the sign
(`1` means negative), the remaining bits the distance, skewed by one on the
negative branch. -/
def decodeSigned (v : Nat) : Int :=
  if v &&& 1 = 1 then -(((v >>> 1 : Nat) : Int) + 1) else ((v >>> 1 : Nat) : Int)

/-- Per-byte loop of the SourceRead branch (`action == 0`): copy from the
source buffer when the source cursor is below `len(source)` (Python indexing,
so a negative cursor wraps from the end and can raise `IndexError`),
otherwise write `0`; both cursors advance by one per byte. -/
def sourceReadLoop (source : List Nat) : Nat → St → Except Err St
  | 0, st => .ok st
  | n + 1, st =>
    if st.srcOff < (source.length : Int) ∧ st.twOff < st.target.length then
      match pyGet source st.srcOff with
      | .ok v =>
        sourceReadLoop source n
          { st with target := st.target.set st.twOff v,
                    twOff := st.twOff + 1, srcOff := st.srcOff + 1 }
      | .error e => .error e
    else if st.twOff < st.target.length then
      sourceReadLoop source n
        { st with target := st.target.set st.twOff 0,
                  twOff := st.twOff + 1, srcOff := st.srcOff + 1 }
    else
      sourceReadLoop source n
        { st with twOff := st.twOff + 1, srcOff := st.srcOff + 1 }

/-- Per-byte loop of the TargetRead branch (`action == 1`): copy literal bytes
from the patch stream at the patch cursor, zero-filling when the cursor is
past the end of the patch; patch cursor and write cursor advance together. -/
def targetReadLoop (patch : List Nat) : Nat → St → St
  | 0, st => st
  | n + 1, st =>
    let st' :=
      if st.offset < patch.length ∧ st.twOff < st.target.length then
        { st with target := st.target.set st.twOff (patch.getD st.offset 0) }
      else if st.twOff < st.target.length then
        { st with target := st.target.set st.twOff 0 }
      else st
    targetReadLoop patch n
      { st' with twOff := st'.twOff + 1, offset := st'.offset + 1 }

/-- Per-byte loop of the SourceCopy branch (`action == 2`), run after the
source cursor has been repositioned: copy from the source when the cursor is
inside `[0, len(source))`, otherwise write `0`. -/
def sourceCopyLoop (source : List Nat) : Nat → St → St
  | 0, st => st
  | n + 1, st =>
    let st' :=
      if 0 ≤ st.srcOff ∧ st.srcOff < (source.length : Int) ∧
          st.twOff < st.target.length then
        { st with target := st.target.set st.twOff (source.getD st.srcOff.toNat 0) }
      else if st.twOff < st.target.length then
        { st with target := st.target.set st.twOff 0 }
      else st
    sourceCopyLoop source n
      { st' with twOff := st'.twOff + 1, srcOff := st'.srcOff + 1 }

/-- Per-byte loop of the TargetCopy branch (`action == 3`): copy from the
already written part of the target buffer (`copy_from` inside
`[0, target_write_offset)`), otherwise write `0`; `copy_from` and the write
cursor advance together, which makes overlapping runs repeat. -/
def targetCopyLoop : Nat → Int → St → St
  | 0, _, st => st
  | n + 1, cf, st =>
    let st' :=
      if 0 ≤ cf ∧ cf < (st.twOff : Int) ∧ st.twOff < st.target.length then
        { st with target := st.target.set st.twOff (st.target.getD cf.toNat 0) }
      else if st.twOff < st.target.length then
        { st with target := st.target.set st.twOff 0 }
      else st
    targetCopyLoop n (cf + 1) { st' with twOff := st'.twOff + 1 }

/-- One iteration of the interpreter loop of `apply_bps_patch`: decode the
action value at the patch cursor, split it into the 2-bit kind and the
length (`(raw >> 2) + 1`), and dispatch to the four branches. -/
def step (source patch : List Nat) (st : St) : Except Err St :=
  let ad := read_vlv patch st.offset
  let raw := ad.1
  let action := raw &&& 3
  let length := (raw >>> 2) + 1
  let st1 : St := { st with offset := ad.2 }
  if action = 0 then
    sourceReadLoop source length st1
  else if action = 1 then
    .ok (targetReadLoop patch length st1)
  else if action = 2 then
    let cd := read_vlv patch st1.offset
    let rel := decodeSigned cd.1
    .ok (sourceCopyLoop source length
      { st1 with offset := cd.2, srcOff := st1.srcOff + rel })
  else if action = 3 then
    let cd := read_vlv patch st1.offset
    let rel := decodeSigned cd.1
    .ok (targetCopyLoop length ((st1.twOff : Int) + rel)
      { st1 with offset := cd.2 })
  else .ok st1

/-- The interpreter loop `while offset < len(patch_data) - 12`, with the
iteration guard made explicit as fuel: the source increments
`iteration_count` and raises once it passes `max_iterations`, which is the
same as running the body `max_iterations` times and failing if the loop
condition still holds. -/
def runLoop (source patch : List Nat) : Nat → St → Except Err St
  | 0, st =>
    if st.offset < patch.length - 12 then .error .maxIterations else .ok st
  | fuel + 1, st =>
    if st.offset < patch.length - 12 then
      match step source patch st with
      | .ok st' => runLoop source patch fuel st'
      | .error e => .error e
    else .ok st

/-- The four magic bytes `b"BPS1"`. -/
def bpsMagic : List Nat := [66, 80, 83, 49]

/-- Embedding of `apply_bps_patch(source_rom, patch_data)`: header checks,
the three header values, the metadata skip, the zero-initialised target of
the declared size, and the interpreter loop with the iteration cap
`2 * len(patch_data)`. -/
def apply_bps_patch (source_rom patch_data : List Nat) : Except Err (List Nat) :=
  if patch_data.length < 19 then .error .patchTooSmall
  else if patch_data.take 4 ≠ bpsMagic then .error .invalidMagic
  else
    let source_size := read_vlv patch_data 4
    let target_size := read_vlv patch_data source_size.2
    let metadata_size := read_vlv patch_data target_size.2
    let offset0 := metadata_size.2 + metadata_size.1
    let st0 : St :=
      { offset := offset0, srcOff := 0, twOff := 0
        target := List.replicate target_size.1 0 }
    match runLoop source_rom patch_data (2 * patch_data.length) st0 with
    | .ok st => .ok st.target
    | .error e => .error e

/-- Patch exercising the SourceRead branch with a negative source cursor:
header sizes 2/2/0, then SourceCopy (length 1, relative offset -3) followed
by SourceRead (length 1), then the 12-byte trailer. -/
def c1Patch : List Nat :=
  [66, 80, 83, 49, 130, 130, 128, 130, 133, 128] ++ List.replicate 12 0

/-- Patch whose action stream fills only one byte of a declared 5-byte
target: header sizes 0/5/0, one TargetRead of length 1 carrying byte `0x7A`,
then the 12-byte trailer. -/
def c3Patch : List Nat :=
  [66, 80, 83, 49, 128, 133, 128, 129, 122] ++ List.replicate 12 0

/-- Minimal container: header sizes 0/1/0, one TargetRead of length 1
carrying byte `0x7A`, then the 12-byte trailer. -/
def c9Patch : List Nat :=
  [66, 80, 83, 49, 128, 129, 128, 129, 122] ++ List.replicate 12 0

/-- Patch driving the source cursor below `-len(source)` for a 2-byte source
before a SourceRead: header sizes 2/2/0, SourceCopy (length 1, relative
offset -5), then SourceRead (length 1), then the 12-byte trailer. -/
def c1CrashPatch : List Nat :=
  [66, 80, 83, 49, 130, 130, 128, 130, 137, 128] ++ List.replicate 12 0

/-- Modelled from the spec: the canonical base-128 encoding of a non-negative
integer, which the repository does not contain (patch creation is out of
scope).  Low 7 bits per byte, least-significant group first, bit 7 set on
the final byte. -/
def encodeVLV (n : Nat) : List Nat :=
  if n < 128 then [n + 128]
  else (n % 128) :: encodeVLV (n / 128)
decreasing_by exact Nat.div_lt_self (by omega) (by omega)

/-- Modelled from the spec: the signed-offset encoding of section 4.2, which
the repository does not contain.  A negative `k` becomes the odd magnitude
`2 * (-k - 1) + 1`, a non-negative `k` the even magnitude `2 * k`. -/
def encodeSigned (k : Int) : Nat :=
  if k < 0 then 2 * (-(k + 1)).toNat + 1 else 2 * k.toNat

deriving instance DecidableEq for Except

/-- The offset returned by the decode loop never moves backwards. -/
theorem readVlvGo_snd_ge :
    ∀ (l : List Nat) (off r s : Nat), off ≤ (readVlvGo l off r s).2 := by
  intro l
  induction l with
  | nil => intro off r s; simp [readVlvGo]
  | cons b rest ih =>
    intro off r s
    simp only [readVlvGo]
    split
    · omega
    · exact Nat.le_trans (Nat.le_succ off) (ih (off + 1) _ _)

/-- On a non-empty remainder the decode loop consumes at least one byte. -/
theorem readVlvGo_snd_succ :
    ∀ (b : Nat) (rest : List Nat) (off r s : Nat),
      off + 1 ≤ (readVlvGo (b :: rest) off r s).2 := by
  intro b rest off r s
  simp only [readVlvGo]
  split
  · omega
  · exact readVlvGo_snd_ge rest (off + 1) _ _

/-- The offset returned by `read_vlv` is at least the starting offset. -/
theorem read_vlv_snd_ge (data : List Nat) (offset : Nat) :
    offset ≤ (read_vlv data offset).2 := by
  unfold read_vlv
  exact readVlvGo_snd_ge _ offset 0 1

/-- Inside the data, `read_vlv` consumes at least one byte. -/
theorem read_vlv_snd_gt (data : List Nat) (offset : Nat)
    (h : offset < data.length) : offset + 1 ≤ (read_vlv data offset).2 := by
  unfold read_vlv
  rcases hd : data.drop offset with _ | ⟨b, rest⟩
  · rw [List.drop_eq_nil_iff] at hd
    omega
  · exact readVlvGo_snd_succ b rest offset 0 1

/-- The TargetRead loop advances both cursors by its count, does not touch
the source cursor and preserves the target length. -/
theorem targetReadLoop_spec (patch : List Nat) (n : Nat) :
    ∀ st : St,
      (targetReadLoop patch n st).twOff = st.twOff + n ∧
      (targetReadLoop patch n st).offset = st.offset + n ∧
      (targetReadLoop patch n st).srcOff = st.srcOff ∧
      (targetReadLoop patch n st).target.length = st.target.length := by
  induction n with
  | zero => intro st; simp [targetReadLoop]
  | succ n ih =>
    intro st
    simp only [targetReadLoop]
    split
    · simp [ih]; omega
    · split
      · simp [ih]; omega
      · simp [ih]; omega

/-- The SourceCopy loop advances the write and source cursors by its count,
does not touch the patch cursor and preserves the target length. -/
theorem sourceCopyLoop_spec (source : List Nat) (n : Nat) :
    ∀ st : St,
      (sourceCopyLoop source n st).twOff = st.twOff + n ∧
      (sourceCopyLoop source n st).offset = st.offset ∧
      (sourceCopyLoop source n st).srcOff = st.srcOff + n ∧
      (sourceCopyLoop source n st).target.length = st.target.length := by
  induction n with
  | zero => intro st; simp [sourceCopyLoop]
  | succ n ih =>
    intro st
    simp only [sourceCopyLoop]
    split
    · simp [ih]; omega
    · split
      · simp [ih]; omega
      · simp [ih]; omega

/-- The TargetCopy loop advances the write cursor by its count, does not
touch the other cursors and preserves the target length. -/
theorem targetCopyLoop_spec (n : Nat) :
    ∀ (cf : Int) (st : St),
      (targetCopyLoop n cf st).twOff = st.twOff + n ∧
      (targetCopyLoop n cf st).offset = st.offset ∧
      (targetCopyLoop n cf st).srcOff = st.srcOff ∧
      (targetCopyLoop n cf st).target.length = st.target.length := by
  induction n with
  | zero => intro cf st; simp [targetCopyLoop]
  | succ n ih =>
    intro cf st
    simp only [targetCopyLoop]
    split
    · simp [ih]; omega
    · split
      · simp [ih]; omega
      · simp [ih]; omega

/-- The only error `pyGet` can produce is `IndexError`. -/
theorem pyGet_error (b : List Nat) (i : Int) (e : Err)
    (h : pyGet b i = .error e) : e = .indexError := by
  simp only [pyGet] at h
  repeat' split at h
  all_goals cases h
  all_goals rfl

/-- When the SourceRead loop returns a state, it has advanced the write and
source cursors by its count, kept the patch cursor and preserved the target
length. -/
theorem sourceReadLoop_ok (source : List Nat) (n : Nat) :
    ∀ (st st' : St), sourceReadLoop source n st = .ok st' →
      st'.twOff = st.twOff + n ∧
      st'.offset = st.offset ∧
      st'.srcOff = st.srcOff + n ∧
      st'.target.length = st.target.length := by
  induction n with
  | zero =>
    intro st st' h
    simp only [sourceReadLoop] at h
    cases h
    simp
  | succ n ih =>
    intro st st' h
    simp only [sourceReadLoop] at h
    split at h
    · split at h
      · rcases ih _ _ h with ⟨h1, h2, h3, h4⟩
        refine ⟨?_, ?_, ?_, ?_⟩ <;> simp_all <;> omega
      · cases h
    · split at h
      · rcases ih _ _ h with ⟨h1, h2, h3, h4⟩
        refine ⟨?_, ?_, ?_, ?_⟩ <;> simp_all <;> omega
      · rcases ih _ _ h with ⟨h1, h2, h3, h4⟩
        refine ⟨?_, ?_, ?_, ?_⟩ <;> simp_all <;> omega

/-- The only error the SourceRead loop can produce is `IndexError`. -/
theorem sourceReadLoop_error (source : List Nat) (n : Nat) :
    ∀ (st : St) (e : Err), sourceReadLoop source n st = .error e →
      e = .indexError := by
  induction n with
  | zero =>
    intro st e h
    simp [sourceReadLoop] at h
  | succ n ih =>
    intro st e h
    simp only [sourceReadLoop] at h
    split at h
    · split at h
      · exact ih _ _ h
      · next e' hp =>
        cases h
        exact pyGet_error source st.srcOff _ hp
    · split at h
      · exact ih _ _ h
      · exact ih _ _ h

/-- One interpreter step, when it returns a state, advances the target write
cursor by exactly the decoded action length `(raw >> 2) + 1`, preserves the
target length, and leaves the patch cursor at or past the end of the decoded
action value. -/
theorem step_ok_spec (source patch : List Nat) (st st' : St)
    (h : step source patch st = .ok st') :
    st'.twOff = st.twOff + (((read_vlv patch st.offset).1 >>> 2) + 1) ∧
    st'.target.length = st.target.length ∧
    (read_vlv patch st.offset).2 ≤ st'.offset := by
  have hle : (read_vlv patch st.offset).1 &&& 3 ≤ 3 := Nat.and_le_right
  simp only [step] at h
  split at h
  · rcases sourceReadLoop_ok source _ _ _ h with ⟨h1, h2, h3, h4⟩
    simp_all
  · split at h
    · cases h
      rcases targetReadLoop_spec patch (((read_vlv patch st.offset).1 >>> 2) + 1)
        { st with offset := (read_vlv patch st.offset).2 } with ⟨h1, h2, h3, h4⟩
      simp_all
    · split at h
      · cases h
        rcases sourceCopyLoop_spec source (((read_vlv patch st.offset).1 >>> 2) + 1)
          { offset := (read_vlv patch (read_vlv patch st.offset).2).2,
            srcOff := st.srcOff +
              decodeSigned (read_vlv patch (read_vlv patch st.offset).2).1,
            twOff := st.twOff, target := st.target } with ⟨h1, h2, h3, h4⟩
        refine ⟨by simp_all, by simp_all, ?_⟩
        rw [h2]
        exact read_vlv_snd_ge patch (read_vlv patch st.offset).2
      · split at h
        · cases h
          rcases targetCopyLoop_spec (((read_vlv patch st.offset).1 >>> 2) + 1)
            ((st.twOff : Int) +
              decodeSigned (read_vlv patch (read_vlv patch st.offset).2).1)
            { offset := (read_vlv patch (read_vlv patch st.offset).2).2,
              srcOff := st.srcOff, twOff := st.twOff,
              target := st.target } with ⟨h1, h2, h3, h4⟩
          refine ⟨by simp_all, by simp_all, ?_⟩
          rw [h2]
          exact read_vlv_snd_ge patch (read_vlv patch st.offset).2
        · omega

/-- Inside the patch, a successful step strictly advances the patch cursor. -/
theorem step_ok_offset_gt (source patch : List Nat) (st st' : St)
    (hlt : st.offset < patch.length)
    (h : step source patch st = .ok st') : st.offset + 1 ≤ st'.offset := by
  have h2 := (step_ok_spec source patch st st' h).2.2
  have h3 := read_vlv_snd_gt patch st.offset hlt
  omega

/-- The only error a step can produce is `IndexError` (raised by the
SourceRead branch through Python indexing). -/
theorem step_error (source patch : List Nat) (st : St) (e : Err)
    (h : step source patch st = .error e) : e = .indexError := by
  simp only [step] at h
  split at h
  · exact sourceReadLoop_error source _ _ _ h
  · split at h
    · cases h
    · split at h
      · cases h
      · split at h
        · cases h
        · cases h

/-- The interpreter loop preserves the length of the target buffer. -/
theorem runLoop_ok_length (source patch : List Nat) :
    ∀ (fuel : Nat) (st st' : St), runLoop source patch fuel st = .ok st' →
      st'.target.length = st.target.length := by
  intro fuel
  induction fuel with
  | zero =>
    intro st st' h
    simp only [runLoop] at h
    split at h
    · cases h
    · cases h; rfl
  | succ fuel ih =>
    intro st st' h
    simp only [runLoop] at h
    split at h
    · split at h
      · rename_i st1 hs
        have := (step_ok_spec source patch st st1 hs).2.1
        rw [ih st1 st' h]
        exact this
      · cases h
    · cases h; rfl

/-- The interpreter loop fails only with the iteration-guard error or an
`IndexError` from a step. -/
theorem runLoop_error (source patch : List Nat) :
    ∀ (fuel : Nat) (st : St) (e : Err), runLoop source patch fuel st = .error e →
      e = .maxIterations ∨ e = .indexError := by
  intro fuel
  induction fuel with
  | zero =>
    intro st e h
    simp only [runLoop] at h
    split at h
    · cases h; exact Or.inl rfl
    · cases h
  | succ fuel ih =>
    intro st e h
    simp only [runLoop] at h
    split at h
    · split at h
      · rename_i st1 hs
        exact ih st1 e h
      · rename_i e' hs
        cases h
        exact Or.inr (step_error source patch st _ hs)
    · cases h

/-- With fuel at least the distance from the patch cursor to the terminal
position, the interpreter loop never raises the iteration-guard error: every
step strictly advances the patch cursor. -/
theorem runLoop_no_maxIter (source patch : List Nat) :
    ∀ (fuel : Nat) (st : St), patch.length - 12 - st.offset ≤ fuel →
      runLoop source patch fuel st ≠ .error .maxIterations := by
  intro fuel
  induction fuel with
  | zero =>
    intro st hf h
    simp only [runLoop] at h
    split at h
    · omega
    · cases h
  | succ fuel ih =>
    intro st hf h
    simp only [runLoop] at h
    split at h
    · split at h
      · rename_i st1 hs
        have hgt : st.offset + 1 ≤ st1.offset :=
          step_ok_offset_gt source patch st st1 (by omega) hs
        exact ih st1 (by omega) h
      · rename_i e' hs
        cases h
        have := step_error source patch st _ hs
        cases this
    · cases h

/-- On success, the result of `apply_bps_patch` is the target buffer, whose
length is the declared target size (third and second header values). -/
theorem apply_ok_length (source patch res : List Nat)
    (h : apply_bps_patch source patch = .ok res) :
    res.length = (read_vlv patch (read_vlv patch 4).2).1 := by
  simp only [apply_bps_patch] at h
  split at h
  · cases h
  · split at h
    · cases h
    · split at h
      · next st hr =>
        cases h
        have := runLoop_ok_length source patch (2 * patch.length) _ st hr
        simpa using this
      · cases h

/-- `apply_bps_patch` never fails with the iteration-guard error: the
initial fuel `2 * len(patch)` always exceeds the distance the patch cursor
can travel. -/
theorem apply_no_maxIter (source patch : List Nat) :
    apply_bps_patch source patch ≠ .error .maxIterations := by
  intro h
  simp only [apply_bps_patch] at h
  split at h
  · cases h
  · split at h
    · cases h
    · split at h
      · cases h
      · next e hr =>
        cases h
        exact runLoop_no_maxIter source patch (2 * patch.length) _ (by omega) hr

/-- Masking with 127 keeps a value below 128 unchanged. -/
theorem and127_of_lt {a : Nat} (h : a < 128) : a &&& 127 = a := by
  have h7 : a &&& 127 = a % 128 := by
    have := Nat.and_pow_two_sub_one_eq_mod a 7
    norm_num at this
    exact this
  rw [h7, Nat.mod_eq_of_lt h]

/-- A value below 128 has bit 7 clear. -/
theorem and128_of_lt {a : Nat} (h : a < 128) : a &&& 128 = 0 := by
  have h7 : a &&& 128 = a &&& 2 ^ 7 := by norm_num
  rw [h7, Nat.and_two_pow, Nat.testBit_lt_two_pow (by norm_num; omega)]
  simp

/-- Adding 128 to a value below 128 leaves the low 7 bits unchanged. -/
theorem addTop_and127 {a : Nat} (h : a < 128) : (a + 128) &&& 127 = a := by
  have h7 := Nat.and_pow_two_sub_one_eq_mod (a + 128) 7
  norm_num at h7
  rw [h7]
  omega

/-- Adding 128 to a value below 128 sets bit 7. -/
theorem addTop_and128 {a : Nat} (h : a < 128) : (a + 128) &&& 128 ≠ 0 := by
  have h7 : (a + 128) &&& 128 = (a + 128) &&& 2 ^ 7 := by norm_num
  have hc : a + 128 = 2 ^ 7 + a := by norm_num; omega
  rw [h7, Nat.and_two_pow, hc, Nat.testBit_two_pow_add_eq,
    Nat.testBit_lt_two_pow (by norm_num; omega)]
  simp

/-- Decoding the canonical encoding from any accumulator state adds the
encoded value times the current weight and consumes exactly the encoding. -/
theorem readVlvGo_encode (n : Nat) :
    ∀ (off r s : Nat),
      readVlvGo (encodeVLV n) off r s = (r + n * s, off + (encodeVLV n).length) := by
  induction n using Nat.strong_induction_on with
  | _ n ih =>
    intro off r s
    by_cases h : n < 128
    · rw [encodeVLV, if_pos h]
      simp only [readVlvGo, List.length_cons, List.length_nil]
      rw [if_pos (addTop_and128 h), addTop_and127 h]
    · rw [encodeVLV, if_neg h]
      simp only [readVlvGo, List.length_cons]
      have hm : n % 128 < 128 := Nat.mod_lt n (by omega)
      rw [if_neg (by simp [and128_of_lt hm]), and127_of_lt hm,
        ih (n / 128) (Nat.div_lt_self (by omega) (by omega))]
      have hs : s <<< 7 = s * 128 := by omega
      have key : 128 * (n / 128) + n % 128 = n := Nat.div_add_mod n 128
      have hv : r + n % 128 * s + n / 128 * (s * 128) =
          r + (128 * (n / 128) + n % 128) * s := by ring
      rw [hs, hv, key]
      simp only [Prod.mk.injEq, true_and]
      omega

/-- When every remaining byte has bit 7 clear, the decode loop consumes the
whole remainder. -/
theorem readVlvGo_no_terminator :
    ∀ (l : List Nat) (off r s : Nat), (∀ b ∈ l, b &&& 128 = 0) →
      (readVlvGo l off r s).2 = off + l.length := by
  intro l
  induction l with
  | nil => intro off r s _; simp [readVlvGo]
  | cons b rest ih =>
    intro off r s hl
    simp only [readVlvGo]
    rw [if_neg (by simp [hl b (by simp)])]
    rw [ih (off + 1) _ _ (fun x hx => hl x (by simp [hx]))]
    simp
    omega

/-- The TargetCopy loop never changes target positions below the write
cursor it starts from. -/
theorem targetCopyLoop_lower (n : Nat) :
    ∀ (cf : Int) (st : St) (j : Nat), j < st.twOff →
      (targetCopyLoop n cf st).target[j]? = st.target[j]? := by
  induction n with
  | zero => intro cf st j hj; simp [targetCopyLoop]
  | succ n ih =>
    intro cf st j hj
    simp only [targetCopyLoop]
    split
    · rw [ih (cf + 1) _ j (by simpa using by omega)]
      exact List.getElem?_set_ne (by omega)
    · split
      · rw [ih (cf + 1) _ j (by simpa using by omega)]
        exact List.getElem?_set_ne (by omega)
      · rw [ih (cf + 1) _ j (by simpa using by omega)]

/-- Running the TargetCopy loop with the read position one byte behind the
write cursor repeats that byte over the whole copied range. -/
theorem targetCopyLoop_rep (n : Nat) :
    ∀ (st : St) (b : Nat), 1 ≤ st.twOff → st.twOff + n ≤ st.target.length →
      st.target[st.twOff - 1]? = some b →
      ∀ i, i < n →
        (targetCopyLoop n ((st.twOff : Int) - 1) st).target[st.twOff + i]? = some b := by
  induction n with
  | zero => intro st b h1 h2 hb i hi; omega
  | succ n ih =>
    intro st b h1 h2 hb i hi
    simp only [targetCopyLoop]
    have hwlt : st.twOff < st.target.length := by omega
    rw [if_pos ⟨by omega, by omega, hwlt⟩]
    have hcf : ((st.twOff : Int) - 1).toNat = st.twOff - 1 := by omega
    have hgd : st.target.getD ((st.twOff : Int) - 1).toNat 0 = b := by
      rw [hcf, List.getD_eq_getElem?_getD, hb]
      rfl
    rw [hgd]
    dsimp only
    have harg : (st.twOff : Int) - 1 + 1 = ((st.twOff + 1 : Nat) : Int) - 1 := by
      push_cast
      ring
    rw [harg]
    have hset : (st.target.set st.twOff b)[st.twOff]? = some b :=
      List.getElem?_set_self hwlt
    rcases i with _ | i
    · rw [Nat.add_zero]
      exact (targetCopyLoop_lower n _ _ st.twOff (Nat.lt_succ_self st.twOff)).trans hset
    · have hidx : st.twOff + (i + 1) = st.twOff + 1 + i := by omega
      rw [hidx]
      exact ih
        { st with target := st.target.set st.twOff b, twOff := st.twOff + 1 } b
        (show 1 ≤ st.twOff + 1 by omega)
        (show st.twOff + 1 + n ≤ (st.target.set st.twOff b).length by
          rw [List.length_set]; omega)
        (show (st.target.set st.twOff b)[st.twOff + 1 - 1]? = some b from hset)
        i (by omega)

/-- Claim C1 (code bug): the zero-fill policy requires any out-of-range
read, also with a source cursor left negative by a SourceCopy reposition,
to write byte 0x00.  The SourceRead branch checks only the upper bound, so
Python negative indexing wraps to the end of the source: on source
`[0xAA, 0xBB]` with `c1Patch` the second target byte is `0xAA` instead of
`0x00`, and with `c1CrashPatch` (cursor below `-len(source)`) the call
aborts with an `IndexError` instead of zero-filling. -/
theorem c1_code_divergence :
    apply_bps_patch [170, 187] c1Patch = .ok [0, 170] ∧
    apply_bps_patch [170, 187] c1CrashPatch = .error .indexError := by
  exact ⟨by decide, by decide⟩

/-- Claim C2, counterexample to the stated failure mode: on data `[1]`,
which ends before any byte with bit 7 set, `read_vlv` does not fail with a
`TruncatedValue` error (its result type `Nat × Nat` has no error case at
all); it returns the partial value 1 with the offset at the end. -/
theorem c2_counterexample : read_vlv [1] 0 = (1, 1) := by decide

/-- Claim C2 as amended: `read_vlv` never fails on any input; when no byte
with the top bit (0x80) set occurs at or after the starting offset, it
consumes all remaining bytes and returns with the offset at the end of the
data (and it returns normally in every other case as well). -/
theorem c2_truncated_vlv_returns (data : List Nat) (offset : Nat)
    (hoff : offset ≤ data.length)
    (hterm : ∀ b ∈ data.drop offset, b &&& 128 = 0) :
    (read_vlv data offset).2 = data.length := by
  unfold read_vlv
  rw [readVlvGo_no_terminator (data.drop offset) offset 0 1 hterm,
    List.length_drop]
  omega

/-- Witness for C2: data `[1, 2]` has no terminating byte, and the decoder
consumes both bytes. -/
theorem c2_witness : (read_vlv [1, 2] 0).2 = 2 :=
  c2_truncated_vlv_returns [1, 2] 0 (by decide) (by decide)

/-- Claim C3, counterexample: `c3Patch` declares target size 5 but its
action stream writes one byte; the call succeeds and the final write cursor
is 1, not 5. -/
theorem c3_counterexample :
    apply_bps_patch [] c3Patch = .ok [122, 0, 0, 0, 0] ∧
    (runLoop [] c3Patch (2 * c3Patch.length)
        { offset := 7, srcOff := 0, twOff := 0,
          target := List.replicate 5 0 }).map St.twOff = .ok 1 ∧
    (read_vlv c3Patch (read_vlv c3Patch 4).2).1 = 5 := by
  exact ⟨by decide, by decide, by decide⟩

/-- Claim C3 as amended: each interpreted action advances the target write
cursor by exactly its decoded length `(raw >> 2) + 1`, so the final cursor
is the sum of the action lengths, which the code never checks against the
declared target size. -/
theorem c3_cursor_advance (source patch : List Nat) (st st' : St)
    (h : step source patch st = .ok st') :
    st'.twOff = st.twOff + (((read_vlv patch st.offset).1 >>> 2) + 1) :=
  (step_ok_spec source patch st st' h).1

/-- Witness for C3: the single TargetRead action of `c3Patch` advances the
write cursor from 0 by its length 1. -/
theorem c3_witness :
    (St.mk 9 0 1 [122, 0, 0, 0, 0]).twOff =
      (St.mk 7 0 0 (List.replicate 5 0)).twOff +
        (((read_vlv c3Patch (St.mk 7 0 0 (List.replicate 5 0)).offset).1 >>> 2) + 1) :=
  c3_cursor_advance [] c3Patch (St.mk 7 0 0 (List.replicate 5 0))
    (St.mk 9 0 1 [122, 0, 0, 0, 0]) (by decide)

/-- Claim C4: in a state with at least one byte written and room for `n`
more, a TargetCopy with decoded offset -1 (VLV magnitude 1) and length `n`
writes `n` copies of the byte just before the write cursor. -/
theorem c4_self_overlap_copy (n : Nat) (st : St)
    (h1 : 1 ≤ st.twOff) (h2 : st.twOff + n ≤ st.target.length) :
    ∀ i, i < n →
      (targetCopyLoop n ((st.twOff : Int) + decodeSigned 1) st).target[st.twOff + i]?
        = st.target[st.twOff - 1]? := by
  intro i hi
  have harg : (st.twOff : Int) + decodeSigned 1 = (st.twOff : Int) - 1 := by
    have hd : decodeSigned 1 = -1 := by decide
    rw [hd]
    ring
  rw [harg]
  rcases hx : st.target[st.twOff - 1]? with _ | b
  · rw [List.getElem?_eq_none_iff] at hx
    omega
  · exact targetCopyLoop_rep n st b h1 h2 hx i hi

/-- Witness for C4: after a written byte 0x41 at position 0, a TargetCopy
of offset -1 and length 5 makes position 3 another 0x41. -/
theorem c4_witness :
    (targetCopyLoop 5 (((St.mk 0 0 1 [65, 0, 0, 0, 0, 0]).twOff : Int) + decodeSigned 1)
        (St.mk 0 0 1 [65, 0, 0, 0, 0, 0])).target[
          (St.mk 0 0 1 [65, 0, 0, 0, 0, 0]).twOff + 2]?
      = (St.mk 0 0 1 [65, 0, 0, 0, 0, 0]).target[
          (St.mk 0 0 1 [65, 0, 0, 0, 0, 0]).twOff - 1]? :=
  c4_self_overlap_copy 5 (St.mk 0 0 1 [65, 0, 0, 0, 0, 0])
    (by decide) (by decide) 2 (by decide)

/-- Claim C5: decoding the canonical base-128 encoding of any `n` yields
`n` with the offset just past the terminating byte. -/
theorem c5_vlv_roundtrip (n : Nat) :
    read_vlv (encodeVLV n) 0 = (n, (encodeVLV n).length) := by
  unfold read_vlv
  rw [List.drop_zero, readVlvGo_encode n 0 0 1]
  simp

/-- Claim C6: the signed relative offset decode maps odd magnitudes `v` to
`-((v >> 1) + 1)` and even ones to `v >> 1`; VLV value 1 decodes to -1; and
decode after encode is the identity on all integers. -/
theorem c6_signed_offset_roundtrip :
    (∀ v : Nat, decodeSigned v =
      if v % 2 = 1 then -(((v / 2 : Nat) : Int) + 1) else ((v / 2 : Nat) : Int)) ∧
    decodeSigned 1 = -1 ∧
    (∀ k : Int, decodeSigned (encodeSigned k) = k) := by
  have hd : ∀ v : Nat, decodeSigned v =
      if v % 2 = 1 then -(((v / 2 : Nat) : Int) + 1) else ((v / 2 : Nat) : Int) := by
    intro v
    have h1 : v &&& 1 = v % 2 := Nat.and_one_is_mod v
    have h2 : v >>> 1 = v / 2 := by
      have := Nat.shiftRight_eq_div_pow v 1
      norm_num at this
      exact this
    simp only [decodeSigned, h1, h2]
  refine ⟨hd, by decide, ?_⟩
  intro k
  by_cases hk : k < 0
  · rw [hd, encodeSigned, if_pos hk, if_pos (by omega)]
    have h2 : (2 * (-(k + 1)).toNat + 1) / 2 = (-(k + 1)).toNat := by omega
    rw [h2]
    omega
  · rw [hd, encodeSigned, if_neg hk, if_neg (by omega)]
    have h2 : 2 * k.toNat / 2 = k.toNat := by omega
    rw [h2]
    omega

/-- Claim C7, counterexample: no input at all makes `apply_bps_patch` fail
with the iteration-guard error, so no patch exhausting the cap exists. -/
theorem c7_counterexample :
    ¬ ∃ source patch : List Nat,
      apply_bps_patch source patch = .error .maxIterations := by
  rintro ⟨s, p, h⟩
  exact apply_no_maxIter s p h

/-- Claim C7 as amended: whenever the fuel is at least the remaining
distance to the terminal position — as the cap `2 * len(patch)` always is —
the loop cannot fail with the iteration-guard error, because each decoded
action advances the patch cursor by at least one byte. -/
theorem c7_loop_guard_unreachable (source patch : List Nat) (fuel : Nat)
    (st : St) (h : patch.length - 12 - st.offset ≤ fuel) :
    runLoop source patch fuel st ≠ .error .maxIterations :=
  runLoop_no_maxIter source patch fuel st h

/-- Witness for C7: running the loop of `c3Patch` from its action stream
start with fuel 21 does not hit the guard. -/
theorem c7_witness :
    runLoop [] c3Patch 21 (St.mk 7 0 0 (List.replicate 5 0)) ≠
      .error .maxIterations :=
  c7_loop_guard_unreachable [] c3Patch 21 (St.mk 7 0 0 (List.replicate 5 0))
    (by decide)

/-- Claim C8: `apply_bps_patch` fails with one of the header errors exactly
when the patch is shorter than 19 bytes or does not start with `BPS1`, and
those inputs produce no other error. -/
theorem c8_badmagic_iff (source patch : List Nat) :
    (apply_bps_patch source patch = .error .patchTooSmall ∨
      apply_bps_patch source patch = .error .invalidMagic) ↔
    (patch.length < 19 ∨ patch.take 4 ≠ bpsMagic) := by
  by_cases h1 : patch.length < 19
  · simp only [apply_bps_patch, if_pos h1]
    simp [h1]
  · by_cases h2 : patch.take 4 = bpsMagic
    · simp only [apply_bps_patch, if_neg h1]
      rw [if_neg (by simp [h2])]
      constructor
      · intro h
        rcases h with h | h <;>
        · split at h
          · cases h
          · rename_i e hr
            cases h
            rcases runLoop_error source patch _ _ _ hr with he | he <;> cases he
      · intro h
        rcases h with h | h
        · exact absurd h h1
        · exact absurd h2 h
    · simp only [apply_bps_patch, if_neg h1]
      rw [if_pos (by simp [h2])]
      simp [h1, h2]

/-- Claim C9: every successful call returns a byte sequence whose length is
the target size declared in the container header, whatever the source
length. -/
theorem c9_length_invariant (source patch res : List Nat)
    (h : apply_bps_patch source patch = .ok res) :
    res.length = (read_vlv patch (read_vlv patch 4).2).1 :=
  apply_ok_length source patch res h

/-- Witness for C9: the minimal container `c9Patch` declares target size 1
and produces the one-byte result `[0x7A]` from an empty source. -/
theorem c9_witness :
    ([122] : List Nat).length = (read_vlv c9Patch (read_vlv c9Patch 4).2).1 :=
  c9_length_invariant [] c9Patch [122] (by decide)

/-- Claim C10: the interpreter always terminates; any successful step from
a cursor inside the patch strictly advances the patch cursor, so the loop
runs at most `len(patch)` times and the `2 * len(patch)` iteration cap is
never exceeded on any input. -/
theorem c10_termination_cap (source patch : List Nat) :
    (∀ st st' : St, st.offset < patch.length →
      step source patch st = .ok st' → st.offset + 1 ≤ st'.offset) ∧
    apply_bps_patch source patch ≠ .error .maxIterations :=
  ⟨fun st st' hlt h => step_ok_offset_gt source patch st st' hlt h,
    apply_no_maxIter source patch⟩

/-- Witness for C10: the first action of `c3Patch` moves the patch cursor
from 7 to 9, and a concrete call never reports the iteration-guard error. -/
theorem c10_witness :
    (St.mk 7 0 0 (List.replicate 5 0)).offset + 1 ≤
      (St.mk 9 0 1 [122, 0, 0, 0, 0]).offset ∧
    apply_bps_patch [] c9Patch ≠ .error .maxIterations :=
  ⟨(c10_termination_cap [] c3Patch).1 (St.mk 7 0 0 (List.replicate 5 0))
      (St.mk 9 0 1 [122, 0, 0, 0, 0]) (by decide) (by decide),
    (c10_termination_cap [] c9Patch).2⟩

